import Mathlib

/-!
# Verification of `data_extractor.py` (rramirezsoft/data-extractor-twitter)

Shallow embedding of the `DataExtractor` class: the text cleaner, the five
feature extractors (hashtags, URLs, prices, emoticons, mentions), the
chunk-wise `process_text` pipeline and `save_file`.  Strings are modelled as
`List Char` / `String`, Python floats as `ℚ`, pandas cell values as `PyVal`,
and fallible Python code as `Except PyErr`.  The `regex`-module scanners are
embedded as executable left-to-right scanners with explicit backtracking,
fuelled by the input length so that they reduce by `rfl`/`decide`.
-/

/-! ## Character classes

The Python code uses the `regex` module, whose classes `\w`, `\s`, `\d` and
`\p{Emoji_Presentation}` are Unicode-aware.  The predicates below model those
classes on the codepoints that occur in this development: ASCII, the Latin-1
letters (such as `é`), the currency signs `€`/`£`, and the emoji blocks the
source itself names.
-/

/-- Model of the regex class `\s` (whitespace), restricted to the ASCII
whitespace characters used here. -/
def isSpaceCh (c : Char) : Bool :=
  c = ' ' || c = '\t' || c = '\n' || c = '\r' || c = '\x0b' || c = '\x0c'

/-- Model of the regex class `\d` (a decimal digit). -/
def isDigitCh (c : Char) : Bool :=
  c.isDigit

/-- The explicit ASCII class `[a-zA-Z0-9_]` of the hashtag pattern. -/
def isAsciiWordCh (c : Char) : Bool :=
  c.isAlphanum || c = '_'

/-- Model of the Unicode-aware regex class `\w`: ASCII word characters plus
the Latin-1 letters (U+00C0..U+00FF without the two operators `×` and `÷`),
which covers every non-ASCII word character appearing in this development
(such as `é`).  Emoji, `€`, `£`, `☕` and punctuation are not word
characters. -/
def isWordCh (c : Char) : Bool :=
  c.isAlphanum || c = '_' ||
    (0xC0 ≤ c.toNat && c.toNat ≤ 0xFF && !(c.toNat = 0xD7) && !(c.toNat = 0xF7))

/-- The four explicit emoji ranges of the cleaner's allow-list:
`\U0001F600-\U0001F64F`, `\U0001F300-\U0001F5FF`, `\U0001F680-\U0001F6FF`,
`\U0001F700-\U0001F77F`. -/
def inCleanerEmoji (c : Char) : Bool :=
  (0x1F600 ≤ c.toNat && c.toNat ≤ 0x1F64F) ||
  (0x1F300 ≤ c.toNat && c.toNat ≤ 0x1F5FF) ||
  (0x1F680 ≤ c.toNat && c.toNat ≤ 0x1F6FF) ||
  (0x1F700 ≤ c.toNat && c.toNat ≤ 0x1F77F)

/-- Model of `\p{Emoji_Presentation}` on the codepoints used here: the
Emoticons block U+1F600..U+1F64F, the skin-tone modifiers U+1F3FB..U+1F3FF,
a slice of the transport block, and U+1F44D (👍). -/
def isEmojiPresentation (c : Char) : Bool :=
  (0x1F600 ≤ c.toNat && c.toNat ≤ 0x1F64F) ||
  (0x1F3FB ≤ c.toNat && c.toNat ≤ 0x1F3FF) ||
  (0x1F680 ≤ c.toNat && c.toNat ≤ 0x1F6C5) ||
  c.toNat = 0x1F44D

/-- The five skin-tone modifier characters listed in `extract_emoticons`. -/
def isSkinTone (c : Char) : Bool :=
  c = '🏻' || c = '🏼' || c = '🏽' || c = '🏾' || c = '🏿'

/-! ## Python values and errors -/

/-- A pandas cell value as seen by the extractor methods: a string, Python
`None`, the float `NaN` that pandas uses for missing values, or any other
non-string object. -/
inductive PyVal where
  | str (s : String)
  | none
  | nan
  | other
deriving DecidableEq

/-- The Python exceptions relevant to this code: `TypeError` (from
`regex.sub` on a non-string), `ValueError` (from `pd.concat` on an empty
list), `AttributeError` (reading a never-assigned instance attribute). -/
inductive PyErr where
  | typeErr
  | valueErr
  | attrErr
deriving DecidableEq

/-! ## `clean_text`

```
text = regex.sub(r'[^\w\s#@:$%.?!\U0001F600-\U0001F64F\U0001F300-\U0001F5FF
                     \U0001F680-\U0001F6FF\U0001F700-\U0001F77F]+', '', text)
text = regex.sub(r'\s+', ' ', text).strip()
```
Substituting a character class with `''` removes every character matching
the class, i.e. keeps exactly the allow-listed characters; `\s+ → ' '`
replaces each maximal whitespace run with a single space; `strip` removes
leading and trailing whitespace.
-/

/-- The allow-list of the cleaner's character class (the complement of the
negated class that is deleted). -/
def allowedCh (c : Char) : Bool :=
  isWordCh c || isSpaceCh c || c = '#' || c = '@' || c = ':' || c = '$' ||
    c = '%' || c = '.' || c = '?' || c = '!' || inCleanerEmoji c

/-- `regex.sub(r'\s+', ' ', ·)`: the flag records whether the previous
character was part of a whitespace run already replaced by a space. -/
def collapseAux : Bool → List Char → List Char
  | _, [] => []
  | b, c :: cs =>
    if isSpaceCh c then
      if b then collapseAux true cs else ' ' :: collapseAux true cs
    else
      c :: collapseAux false cs

/-- Python `str.strip()` on the left: drop leading whitespace. -/
def trimLeft (l : List Char) : List Char :=
  l.dropWhile isSpaceCh

/-- Python `str.strip()` on the right: drop trailing whitespace. -/
def trimRight (l : List Char) : List Char :=
  (l.reverse.dropWhile isSpaceCh).reverse

/-- Python `str.strip()`. -/
def stripWS (l : List Char) : List Char :=
  trimRight (trimLeft l)

/-- The string-level body of `clean_text` on `List Char`. -/
def cleanList (l : List Char) : List Char :=
  stripWS (collapseAux false (l.filter allowedCh))

/-- The string-level body of `clean_text`. -/
def cleanStr (s : String) : String :=
  (cleanList s.toList).asString

/-- `clean_text(self, text)`: only `None` is guarded (`if text is not
None`); any other non-string value reaches `regex.sub`, which raises
`TypeError`. -/
def clean_text : PyVal → Except PyErr String
  | PyVal.str s => Except.ok (cleanStr s)
  | PyVal.none => Except.ok ""
  | PyVal.nan => Except.error PyErr.typeErr
  | PyVal.other => Except.error PyErr.typeErr

/-! ## `extract_hashtags`: `regex.findall(r'#\b[a-zA-Z0-9_]+\b', text)`

A left-to-right scan.  At a `#`, the leading `\b` holds iff the next
character is a (Unicode) word character; the class `[a-zA-Z0-9_]+` is
greedy and backtracks until the trailing `\b` holds, i.e. until the
character after the matched run is not a (Unicode) word character.
-/

/-- The trailing `\b` of the hashtag pattern: the previous character is an
ASCII word character, so a boundary holds iff the next character is absent
or not a word character. -/
def wordBoundaryAfter (l : List Char) : Bool :=
  match l with
  | [] => true
  | c :: _ => !isWordCh c

/-- Backtracking of the greedy `[a-zA-Z0-9_]+`: try run lengths from the
greedy maximum down to 1, accepting the first whose end is a word
boundary. -/
def tryLen (cs : List Char) : Nat → Option Nat
  | 0 => Option.none
  | k + 1 => if wordBoundaryAfter (cs.drop (k + 1)) then some (k + 1) else tryLen cs k

/-- Fuelled scanner for `findall(r'#\b[a-zA-Z0-9_]+\b', ·)`.  Each step
consumes at least one character, so fuel `length + 1` is enough. -/
def hashtagGo : Nat → List Char → List String
  | 0, _ => []
  | _ + 1, [] => []
  | fuel + 1, c :: cs =>
    if c = '#' then
      match tryLen cs (cs.takeWhile isAsciiWordCh).length with
      | some k => ('#' :: cs.take k).asString :: hashtagGo fuel (cs.drop k)
      | Option.none => hashtagGo fuel cs
    else
      hashtagGo fuel cs

/-- `extract_hashtags`: non-string (or NaN) input yields `[]`. -/
def extract_hashtags : PyVal → List String
  | PyVal.str s => hashtagGo (s.toList.length + 1) s.toList
  | _ => []

/-! ## `extract_urls`: `regex.findall(r'https?://\S+', text)` -/

/-- Fuelled scanner for `findall(r'https?://\S+', ·)`: at a literal
`https://` or `http://` the greedy `\S+` takes the maximal non-whitespace
run, which must be non-empty; otherwise the scan advances one character. -/
def urlGo : Nat → List Char → List String
  | 0, _ => []
  | _ + 1, [] => []
  | fuel + 1, c :: cs =>
    if (c :: cs).take 8 = "https://".toList then
      let ns := ((c :: cs).drop 8).takeWhile (fun a => !isSpaceCh a)
      if ns.isEmpty then urlGo fuel cs
      else ((c :: cs).take (8 + ns.length)).asString ::
        urlGo fuel ((c :: cs).drop (8 + ns.length))
    else if (c :: cs).take 7 = "http://".toList then
      let ns := ((c :: cs).drop 7).takeWhile (fun a => !isSpaceCh a)
      if ns.isEmpty then urlGo fuel cs
      else ((c :: cs).take (7 + ns.length)).asString ::
        urlGo fuel ((c :: cs).drop (7 + ns.length))
    else
      urlGo fuel cs

/-- `extract_urls`: non-string (or NaN) input yields `[]`. -/
def extract_urls : PyVal → List String
  | PyVal.str s => urlGo (s.toList.length + 1) s.toList
  | _ => []

/-! ## `extract_price`

```
prices = regex.findall(r"(?:\$\s?([\d]+(?:,\d{3})*(?:\.\d+)?)
                          |\b([\d]+(?:,\d{3})*(?:\.\d+)?)\$)", text)
prices = [p[0] if p[0] else p[1] for p in prices]
return [float(price.replace(",", "")) for price in prices]
```
`NUM = [\d]+(?:,\d{3})*(?:\.\d+)?` is matched with the usual greedy
backtracking; in the trailing-symbol branch the number must start at a word
boundary and be followed by `$`.  Only the symbol `$` appears in the
pattern.
-/

/-- The lengths `[n, n-1, ..., 1]`: candidate lengths of a greedy `+`
quantifier in backtracking priority order. -/
def rangeDesc : Nat → List Nat
  | 0 => []
  | n + 1 => (n + 1) :: rangeDesc n

/-- Candidate consumed lengths of `(?:,\d{3})*` in backtracking priority
order (maximal repetition count first, zero repetitions last). -/
def commaCands : List Char → List Nat
  | ',' :: d1 :: d2 :: d3 :: rest =>
    if isDigitCh d1 && isDigitCh d2 && isDigitCh d3 then
      (commaCands rest).map (fun n => n + 4) ++ [0]
    else [0]
  | _ => [0]

/-- Candidate consumed lengths of `(?:\.\d+)?` in backtracking priority
order (present with a greedy digit run first, absent last). -/
def fracCands (l : List Char) : List Nat :=
  match l with
  | '.' :: rest =>
    (rangeDesc (rest.takeWhile isDigitCh).length).map (fun k => k + 1) ++ [0]
  | _ => [0]

/-- Candidate consumed lengths of `NUM` at the front of `l`, in the order a
backtracking regex engine tries them. -/
def numCands (l : List Char) : List Nat :=
  (rangeDesc (l.takeWhile isDigitCh).length).flatMap (fun i =>
    (commaCands (l.drop i)).flatMap (fun j =>
      (fracCands (l.drop (i + j))).map (fun k => i + j + k)))

/-- Branch `\$\s?(NUM)` after the `$` has been consumed: the greedy `\s?`
first tries to consume one whitespace character, falling back to none.  The
continuation after `NUM` is empty, so the first candidate wins.  Returns
the captured number text and the remaining input. -/
def branchA (cs : List Char) : Option (List Char × List Char) :=
  match cs with
  | w :: cs₂ =>
    if isSpaceCh w then
      match (numCands cs₂).head? with
      | some len => some (cs₂.take len, cs₂.drop len)
      | Option.none =>
        match (numCands cs).head? with
        | some len => some (cs.take len, cs.drop len)
        | Option.none => Option.none
    else
      match (numCands cs).head? with
      | some len => some (cs.take len, cs.drop len)
      | Option.none => Option.none
  | [] => Option.none

/-- Branch `\b(NUM)\$` (the `\b` is checked by the caller): the first `NUM`
candidate followed by a literal `$` wins.  Returns the captured number text
and the input remaining after the `$`. -/
def branchB (l : List Char) : Option (List Char × List Char) :=
  match ((numCands l).filter (fun len => (l.drop len).head? = some '$')).head? with
  | some len => some (l.take len, l.drop (len + 1))
  | Option.none => Option.none

/-- Fuelled scanner for the price pattern.  `prevW` records whether the
character before the current position is a word character, which decides
the `\b` of the trailing-symbol branch (the number starts with a digit, a
word character, so the boundary holds iff `prevW` is false). -/
def priceGo : Nat → Bool → List Char → List (List Char)
  | 0, _, _ => []
  | _ + 1, _, [] => []
  | fuel + 1, prevW, c :: cs =>
    if c = '$' then
      match branchA cs with
      | some (n, rest) => n :: priceGo fuel true rest
      | Option.none => priceGo fuel false cs
    else if prevW then
      priceGo fuel (isWordCh c) cs
    else
      match branchB (c :: cs) with
      | some (n, rest) => n :: priceGo fuel false rest
      | Option.none => priceGo fuel (isWordCh c) cs

/-- `int(digits)` on a list of decimal digits. -/
def digitsToNat (l : List Char) : Nat :=
  l.foldl (fun n c => 10 * n + (c.toNat - '0'.toNat)) 0

/-- Python `float(s)` on the number texts produced by the price pattern
(digits, optionally a point and more digits), modelled exactly in `ℚ`. -/
def pyFloat (l : List Char) : ℚ :=
  let ip := l.takeWhile (fun c => !(c = '.'))
  match l.dropWhile (fun c => !(c = '.')) with
  | [] => (digitsToNat ip : ℚ)
  | _ :: fp => (digitsToNat ip : ℚ) + (digitsToNat fp : ℚ) / (10 : ℚ) ^ fp.length

/-- `extract_price`: scan, then `float(price.replace(",", ""))` on each
captured number text. -/
def extract_price : PyVal → List ℚ
  | PyVal.str s =>
    (priceGo (s.toList.length + 1) false s.toList).map
      (fun n => pyFloat (n.filter (fun c => !(c = ','))))
  | _ => []

/-! ## `extract_emoticons`: `regex.findall(r"(\p{Emoji_Presentation}+)", text)`

`findall` of a greedy `X+` yields exactly the maximal runs of `X`
characters, left to right.  The code then removes the five skin-tone
modifiers from each run.
-/

/-- The maximal runs of emoji-presentation characters, in appearance
order. -/
def emojiRuns : List Char → List (List Char)
  | [] => []
  | [c] => if isEmojiPresentation c then [[c]] else []
  | c :: c' :: cs =>
    if isEmojiPresentation c then
      if isEmojiPresentation c' then
        match emojiRuns (c' :: cs) with
        | g :: gs => (c :: g) :: gs
        | [] => [[c]]
      else
        [c] :: emojiRuns (c' :: cs)
    else
      emojiRuns (c' :: cs)

/-- `extract_emoticons`: group maximal emoji runs, then delete the skin-tone
modifiers inside each group. -/
def extract_emoticons : PyVal → List String
  | PyVal.str s =>
    (emojiRuns s.toList).map (fun g => (g.filter (fun c => !isSkinTone c)).asString)
  | _ => []

/-! ## `extract_mentions`: `regex.findall(r'@\w+', text)` -/

/-- Fuelled scanner for `findall(r'@\w+', ·)`. -/
def mentionGo : Nat → List Char → List String
  | 0, _ => []
  | _ + 1, [] => []
  | fuel + 1, c :: cs =>
    if c = '@' then
      let r := cs.takeWhile isWordCh
      if r.isEmpty then mentionGo fuel cs
      else ('@' :: r).asString :: mentionGo fuel (cs.drop r.length)
    else
      mentionGo fuel cs

/-- `extract_mentions`: non-string (or NaN) input yields `[]`. -/
def extract_mentions : PyVal → List String
  | PyVal.str s => mentionGo (s.toList.length + 1) s.toList
  | _ => []

/-! ## The pipeline: `load_data`, `process_text`, `save_file`

`load_data` projects the two columns `text` and `user_name`
(`usecols=["text", "user_name"]`) and returns a lazy sequence of chunks; a
fatal load error is caught and replaced by the empty list `[]`.  We model
the loader's outcome directly as the list of chunks it yields (so a caught
load failure, or an input with no data rows, is the empty list), each chunk
a list of raw rows.
-/

/-- A row of a loaded chunk: the two projected columns.  Either value is
`nan` when the cell is missing. -/
structure RawRow where
  text : PyVal
  user_name : PyVal
deriving DecidableEq

/-- A row after `process_text` added the six derived columns.  The raw
`text` column is kept; the cleaned text goes to the new column
`text_cleaned`. -/
structure AnnRow where
  text : PyVal
  user_name : PyVal
  Hashtags : List String
  URLs : List String
  Prices : List ℚ
  Emoticons : List String
  Mentions : List String
  text_cleaned : String
deriving DecidableEq

/-- The per-row effect of the six `chunk[...] = chunk["text"].apply(...)`
assignments, lines 112–117.  The five extractors are total on any cell
value; `clean_text` raises `TypeError` on a non-string, non-`None` cell,
and that exception propagates out of `process_text`. -/
def annotateRow (r : RawRow) : Except PyErr AnnRow :=
  match clean_text r.text with
  | Except.error e => Except.error e
  | Except.ok c =>
    Except.ok
      ⟨r.text, r.user_name, extract_hashtags r.text, extract_urls r.text,
        extract_price r.text, extract_emoticons r.text, extract_mentions r.text, c⟩

/-- One iteration of the `for chunk in self.load_data()` loop: every row of
the chunk is annotated; the first raised exception propagates. -/
def processChunk : List RawRow → Except PyErr (List AnnRow)
  | [] => Except.ok []
  | r :: rs =>
    match annotateRow r with
    | Except.error e => Except.error e
    | Except.ok a =>
      match processChunk rs with
      | Except.error e => Except.error e
      | Except.ok as2 => Except.ok (a :: as2)

/-- The loop building `df_list`, in batch arrival order. -/
def buildChunks : List (List RawRow) → Except PyErr (List (List AnnRow))
  | [] => Except.ok []
  | c :: cs =>
    match processChunk c with
    | Except.error e => Except.error e
    | Except.ok d =>
      match buildChunks cs with
      | Except.error e => Except.error e
      | Except.ok ds => Except.ok (d :: ds)

/-- `pd.concat(df_list, ignore_index=True)`: concatenates the frames in
order, but raises `ValueError` (`No objects to concatenate`) when the list
is empty. -/
def pd_concat (dfs : List (List AnnRow)) : Except PyErr (List AnnRow) :=
  match dfs with
  | [] => Except.error PyErr.valueErr
  | _ => Except.ok dfs.flatten

/-- `process_text(self)`, applied to the chunks the loader yields (the
empty list when the load failure was caught). -/
def process_text (chunks : List (List RawRow)) : Except PyErr (List AnnRow) :=
  match buildChunks chunks with
  | Except.error e => Except.error e
  | Except.ok dfs => pd_concat dfs

/-! ### Column labels

pandas column assignment `chunk[name] = ...` keeps an existing column in
place and appends a new name at the end of the column index.  The loader's
projection yields the columns `["text", "user_name"]`.
-/

/-- pandas `frame[name] = value` on the column index. -/
def pdSetCol (cols : List String) (name : String) : List String :=
  if name ∈ cols then cols else cols ++ [name]

/-- The column index of a loaded chunk (`usecols=["text", "user_name"]`). -/
def loadedCols : List String :=
  ["text", "user_name"]

/-- The column index after the six assignments of `process_text`. -/
def processedCols : List String :=
  pdSetCol (pdSetCol (pdSetCol (pdSetCol (pdSetCol (pdSetCol loadedCols
    "Hashtags") "URLs") "Prices") "Emoticons") "Mentions") "text_cleaned"

/-! ### `save_file`

```
def save_file(self, file_name: str) -> None:
    if self.df_data is None:
        self.process_text()
    self.df_data.to_csv(file_name + ".csv", index=False)
```
`__init__` never assigns `self.df_data`; only `process_text` does (and
never assigns `None` to it).  So when `process_text` has not run, the very
read `self.df_data` in the guard raises `AttributeError` — the
recompute branch is unreachable — and otherwise the dataset, empty or not,
is written unconditionally.
-/

/-- The object state relevant to `save_file`: `Option.none` models the
`df_data` attribute never having been assigned. -/
structure ExtractorState where
  df_data : Option (List AnnRow)
deriving DecidableEq

/-- A performed `to_csv` call: destination path, the frame written, and
whether a header row is included (`to_csv` defaults to `header=True`;
`index=False` drops the index column). -/
structure CsvWrite where
  path : String
  df : List AnnRow
  header : Bool
deriving DecidableEq

/-- `save_file(self, file_name)`. -/
def save_file (st : ExtractorState) (file_name : String) : Except PyErr CsvWrite :=
  match st.df_data with
  | Option.none => Except.error PyErr.attrErr
  | some df => Except.ok ⟨file_name ++ ".csv", df, true⟩

/-! ## Idempotence of the cleaner

The output of `cleanList` contains only allow-listed characters, its only
whitespace character is `' '`, no two whitespace characters are adjacent,
and it neither starts nor ends with whitespace.  On such a list each of the
three stages of `cleanList` is the identity.
-/

/-- The head, if any, is not whitespace. -/
def headNs (l : List Char) : Prop :=
  ∀ c, l.head? = some c → isSpaceCh c = false

/-- The last element, if any, is not whitespace. -/
def lastNs (l : List Char) : Prop :=
  ∀ c, l.getLast? = some c → isSpaceCh c = false

/-- Adjacent characters are not both whitespace. -/
def noSpPair (a b : Char) : Prop :=
  isSpaceCh a = false ∨ isSpaceCh b = false

theorem collapseAux_cons_sp_true {d : Char} {ds : List Char}
    (hd : isSpaceCh d = true) : collapseAux true (d :: ds) = collapseAux true ds := by
  simp [collapseAux, hd]

theorem collapseAux_cons_sp_false {d : Char} {ds : List Char}
    (hd : isSpaceCh d = true) :
    collapseAux false (d :: ds) = ' ' :: collapseAux true ds := by
  simp [collapseAux, hd]

theorem collapseAux_cons_ns (b : Bool) {d : Char} {ds : List Char}
    (hd : isSpaceCh d = false) :
    collapseAux b (d :: ds) = d :: collapseAux false ds := by
  cases b <;> simp [collapseAux, hd]

theorem dropWhile_cons_sp {d : Char} {ds : List Char} (hd : isSpaceCh d = true) :
    (d :: ds).dropWhile isSpaceCh = ds.dropWhile isSpaceCh := by
  simp [List.dropWhile_cons, hd]

theorem dropWhile_cons_ns {d : Char} {ds : List Char} (hd : isSpaceCh d = false) :
    (d :: ds).dropWhile isSpaceCh = d :: ds := by
  simp [List.dropWhile_cons, hd]

theorem mem_collapseAux {b : Bool} {l : List Char} {c : Char}
    (h : c ∈ collapseAux b l) : c = ' ' ∨ c ∈ l := by
  induction l generalizing b with
  | nil => simp [collapseAux] at h
  | cons d ds ih =>
    cases hd : isSpaceCh d with
    | true =>
      cases b with
      | true =>
        rw [collapseAux_cons_sp_true hd] at h
        rcases ih h with h1 | h2
        · exact Or.inl h1
        · exact Or.inr (List.mem_cons_of_mem _ h2)
      | false =>
        rw [collapseAux_cons_sp_false hd, List.mem_cons] at h
        rcases h with rfl | h2
        · exact Or.inl rfl
        · rcases ih h2 with h1 | h3
          · exact Or.inl h1
          · exact Or.inr (List.mem_cons_of_mem _ h3)
    | false =>
      rw [collapseAux_cons_ns b hd, List.mem_cons] at h
      rcases h with rfl | h2
      · exact Or.inr (List.mem_cons_self _ _)
      · rcases ih h2 with h1 | h3
        · exact Or.inl h1
        · exact Or.inr (List.mem_cons_of_mem _ h3)

theorem spaces_collapseAux {b : Bool} {l : List Char} {c : Char}
    (h : c ∈ collapseAux b l) (hc : isSpaceCh c = true) : c = ' ' := by
  induction l generalizing b with
  | nil => simp [collapseAux] at h
  | cons d ds ih =>
    cases hd : isSpaceCh d with
    | true =>
      cases b with
      | true =>
        rw [collapseAux_cons_sp_true hd] at h
        exact ih h
      | false =>
        rw [collapseAux_cons_sp_false hd, List.mem_cons] at h
        rcases h with rfl | h2
        · rfl
        · exact ih h2
    | false =>
      rw [collapseAux_cons_ns b hd, List.mem_cons] at h
      rcases h with rfl | h2
      · exact absurd hc (by simp [hd])
      · exact ih h2

theorem headNs_collapseAux_true (l : List Char) : headNs (collapseAux true l) := by
  induction l with
  | nil => intro c h; simp [collapseAux] at h
  | cons d ds ih =>
    cases hd : isSpaceCh d with
    | true => rw [collapseAux_cons_sp_true hd]; exact ih
    | false =>
      intro c h
      rw [collapseAux_cons_ns true hd, List.head?_cons, Option.some.injEq] at h
      subst h
      exact hd

theorem chain_collapseAux (b : Bool) (l : List Char) :
    List.Chain' noSpPair (collapseAux b l) := by
  induction l generalizing b with
  | nil => simp [collapseAux]
  | cons d ds ih =>
    cases hd : isSpaceCh d with
    | true =>
      cases b with
      | true => rw [collapseAux_cons_sp_true hd]; exact ih true
      | false =>
        rw [collapseAux_cons_sp_false hd, List.chain'_cons']
        refine ⟨?_, ih true⟩
        intro y hy
        exact Or.inr (headNs_collapseAux_true ds y hy)
    | false =>
      rw [collapseAux_cons_ns b hd, List.chain'_cons']
      exact ⟨fun y _ => Or.inl hd, ih false⟩

theorem collapseAux_eq_self {l : List Char} (b : Bool)
    (hsp : ∀ c ∈ l, isSpaceCh c = true → c = ' ')
    (hch : List.Chain' noSpPair l)
    (hb : b = true → headNs l) : collapseAux b l = l := by
  induction l generalizing b with
  | nil => cases b <;> rfl
  | cons d ds ih =>
    cases hd : isSpaceCh d with
    | true =>
      cases b with
      | true =>
        have := hb rfl d (by simp)
        simp [hd] at this
      | false =>
        have hd' : d = ' ' := hsp d (List.mem_cons_self _ _) hd
        have hds : headNs ds := by
          intro c hc
          rcases (List.chain'_cons'.mp hch).1 c hc with h1 | h2
          · exact absurd hd (by simp [h1])
          · exact h2
        rw [collapseAux_cons_sp_false hd, hd',
          ih true (fun c hc => hsp c (List.mem_cons_of_mem _ hc)) hch.tail
            (fun _ => hds)]
    | false =>
      rw [collapseAux_cons_ns b hd,
        ih false (fun c hc => hsp c (List.mem_cons_of_mem _ hc)) hch.tail
          (fun h => Bool.noConfusion h)]

theorem headNs_dropWhile (l : List Char) : headNs (l.dropWhile isSpaceCh) := by
  induction l with
  | nil => intro c h; simp [List.dropWhile] at h
  | cons d ds ih =>
    cases hd : isSpaceCh d with
    | true => rw [dropWhile_cons_sp hd]; exact ih
    | false =>
      intro c h
      rw [dropWhile_cons_ns hd, List.head?_cons, Option.some.injEq] at h
      subst h
      exact hd

theorem dropWhile_eq_self_of_headNs {l : List Char} (h : headNs l) :
    l.dropWhile isSpaceCh = l := by
  cases l with
  | nil => rfl
  | cons d ds =>
    have hd : isSpaceCh d = false := h d (by simp)
    exact dropWhile_cons_ns hd

theorem mem_dropWhile {l : List Char} {c : Char}
    (h : c ∈ l.dropWhile isSpaceCh) : c ∈ l := by
  induction l with
  | nil => simp [List.dropWhile] at h
  | cons d ds ih =>
    cases hd : isSpaceCh d with
    | true =>
      rw [dropWhile_cons_sp hd] at h
      exact List.mem_cons_of_mem _ (ih h)
    | false =>
      rw [dropWhile_cons_ns hd] at h
      exact h

theorem chain_dropWhile {l : List Char} (h : List.Chain' noSpPair l) :
    List.Chain' noSpPair (l.dropWhile isSpaceCh) := by
  induction l with
  | nil => simp
  | cons d ds ih =>
    cases hd : isSpaceCh d with
    | true => rw [dropWhile_cons_sp hd]; exact ih h.tail
    | false => rw [dropWhile_cons_ns hd]; exact h

theorem chain_reverse_noSp {l : List Char} (h : List.Chain' noSpPair l) :
    List.Chain' noSpPair l.reverse := by
  rw [List.chain'_reverse]
  exact h.imp (fun a b hab => hab.symm)

theorem exists_append_dropWhile (l : List Char) :
    ∃ u, l = u ++ l.dropWhile isSpaceCh := by
  induction l with
  | nil => exact ⟨[], rfl⟩
  | cons d ds ih =>
    cases hd : isSpaceCh d with
    | true =>
      obtain ⟨u, hu⟩ := ih
      exact ⟨d :: u, by rw [dropWhile_cons_sp hd]; exact congrArg (List.cons d) hu⟩
    | false => exact ⟨[], by rw [dropWhile_cons_ns hd]; rfl⟩

theorem lastNs_trimRight (l : List Char) : lastNs (trimRight l) := by
  intro c hc
  rw [trimRight, List.getLast?_reverse] at hc
  exact headNs_dropWhile l.reverse c hc

theorem trimRight_eq_self {l : List Char} (h : lastNs l) : trimRight l = l := by
  have hh : headNs l.reverse := by
    intro c hc
    rw [List.head?_reverse] at hc
    exact h c hc
  rw [trimRight, dropWhile_eq_self_of_headNs hh, List.reverse_reverse]

theorem mem_trimRight {l : List Char} {c : Char} (h : c ∈ trimRight l) : c ∈ l := by
  rw [trimRight, List.mem_reverse] at h
  exact List.mem_reverse.mp (mem_dropWhile h)

theorem chain_trimRight {l : List Char} (h : List.Chain' noSpPair l) :
    List.Chain' noSpPair (trimRight l) :=
  chain_reverse_noSp (chain_dropWhile (chain_reverse_noSp h))

theorem headNs_trimRight {l : List Char} (h : headNs l) : headNs (trimRight l) := by
  obtain ⟨u, hu⟩ := exists_append_dropWhile l.reverse
  have hl : l = trimRight l ++ u.reverse := by
    conv_lhs => rw [← List.reverse_reverse l, hu]
    rw [List.reverse_append]
    rfl
  intro c hc
  apply h c
  rw [hl]
  cases htr : trimRight l with
  | nil => rw [htr] at hc; simp at hc
  | cons x xs =>
    rw [htr] at hc
    simp only [List.head?_cons, Option.some.injEq] at hc
    subst hc
    simp

theorem stripWS_eq_self {l : List Char} (h1 : headNs l) (h2 : lastNs l) :
    stripWS l = l := by
  rw [stripWS, trimLeft, dropWhile_eq_self_of_headNs h1, trimRight_eq_self h2]

theorem mem_cleanList {l : List Char} {c : Char} (h : c ∈ cleanList l) :
    c = ' ' ∨ c ∈ l.filter allowedCh :=
  mem_collapseAux (mem_dropWhile (mem_trimRight h))

theorem cleanList_allowed {l : List Char} {c : Char} (h : c ∈ cleanList l) :
    allowedCh c = true := by
  rcases mem_cleanList h with rfl | h2
  · decide
  · exact (List.mem_filter.mp h2).2

theorem cleanList_spaces {l : List Char} {c : Char} (h : c ∈ cleanList l)
    (hc : isSpaceCh c = true) : c = ' ' :=
  spaces_collapseAux (mem_dropWhile (mem_trimRight h)) hc

theorem chain_cleanList (l : List Char) : List.Chain' noSpPair (cleanList l) :=
  chain_trimRight (chain_dropWhile (chain_collapseAux false _))

theorem headNs_cleanList (l : List Char) : headNs (cleanList l) :=
  headNs_trimRight (headNs_dropWhile _)

theorem lastNs_cleanList (l : List Char) : lastNs (cleanList l) :=
  lastNs_trimRight _

theorem cleanList_idem (l : List Char) : cleanList (cleanList l) = cleanList l := by
  have hfil : (cleanList l).filter allowedCh = cleanList l :=
    List.filter_eq_self.mpr (fun c hc => cleanList_allowed hc)
  show stripWS (collapseAux false ((cleanList l).filter allowedCh)) = cleanList l
  rw [hfil,
    collapseAux_eq_self false (fun c hc => cleanList_spaces hc) (chain_cleanList l)
      (fun h => Bool.noConfusion h),
    stripWS_eq_self (headNs_cleanList l) (lastNs_cleanList l)]

theorem cleanStr_idem (s : String) : cleanStr (cleanStr s) = cleanStr s := by
  show (cleanList (cleanList s.toList)).asString = (cleanList s.toList).asString
  rw [cleanList_idem]

/-! ## Helper lemmas about the pipeline -/

theorem toList_asString (l : List Char) : l.asString.toList = l := rfl

theorem annotateRow_ok {r : RawRow} {a : AnnRow} (h : annotateRow r = Except.ok a) :
    a.text = r.text ∧ a.user_name = r.user_name ∧
    a.Hashtags = extract_hashtags r.text ∧ a.URLs = extract_urls r.text ∧
    a.Prices = extract_price r.text ∧ a.Emoticons = extract_emoticons r.text ∧
    a.Mentions = extract_mentions r.text ∧
    clean_text r.text = Except.ok a.text_cleaned := by
  cases hc : clean_text r.text with
  | error e =>
    unfold annotateRow at h
    rw [hc] at h
    simp at h
  | ok c =>
    unfold annotateRow at h
    rw [hc] at h
    have h2 : Except.ok
        (⟨r.text, r.user_name, extract_hashtags r.text, extract_urls r.text,
          extract_price r.text, extract_emoticons r.text,
          extract_mentions r.text, c⟩ : AnnRow) = Except.ok a := h
    injection h2 with h3
    subst h3
    exact ⟨rfl, rfl, rfl, rfl, rfl, rfl, rfl, rfl⟩

theorem processChunk_ok {rs : List RawRow} {as2 : List AnnRow}
    (h : processChunk rs = Except.ok as2) :
    as2.map (fun a => (a.text, a.user_name)) =
      rs.map (fun r => (r.text, r.user_name)) := by
  induction rs generalizing as2 with
  | nil =>
    simp only [processChunk, Except.ok.injEq] at h
    subst h
    rfl
  | cons r rs ih =>
    unfold processChunk at h
    cases ha : annotateRow r with
    | error e => rw [ha] at h; simp at h
    | ok a =>
      rw [ha] at h
      cases hp : processChunk rs with
      | error e => rw [hp] at h; simp at h
      | ok tl =>
        rw [hp] at h
        have h2 : Except.ok (a :: tl) = Except.ok as2 := h
        injection h2 with h3
        subst h3
        obtain ⟨h1, h4, _⟩ := annotateRow_ok ha
        simp [List.map_cons, h1, h4, ih hp]

theorem buildChunks_ok {cs : List (List RawRow)} {ds : List (List AnnRow)}
    (h : buildChunks cs = Except.ok ds) :
    ds.flatten.map (fun a => (a.text, a.user_name)) =
      cs.flatten.map (fun r => (r.text, r.user_name)) := by
  induction cs generalizing ds with
  | nil =>
    simp only [buildChunks, Except.ok.injEq] at h
    subst h
    rfl
  | cons c cs ih =>
    unfold buildChunks at h
    cases hc : processChunk c with
    | error e => rw [hc] at h; simp at h
    | ok d =>
      rw [hc] at h
      cases hb : buildChunks cs with
      | error e => rw [hb] at h; simp at h
      | ok tl =>
        rw [hb] at h
        have h2 : Except.ok (d :: tl) = Except.ok ds := h
        injection h2 with h3
        subst h3
        simp only [List.flatten_cons, List.map_append]
        rw [processChunk_ok hc, ih hb]

theorem emojiRuns_mem {l : List Char} :
    ∀ {g : List Char}, g ∈ emojiRuns l → ∀ c ∈ g, isEmojiPresentation c = true := by
  induction l with
  | nil => intro g hg; simp [emojiRuns] at hg
  | cons d ds ih =>
    intro g hg
    cases ds with
    | nil =>
      cases hd : isEmojiPresentation d with
      | true =>
        simp [emojiRuns, hd] at hg
        subst hg
        intro c hc
        simp only [List.mem_singleton] at hc
        subst hc
        exact hd
      | false => simp [emojiRuns, hd] at hg
    | cons d' ds' =>
      cases hd : isEmojiPresentation d with
      | false =>
        simp only [emojiRuns, hd, Bool.false_eq_true, if_false] at hg
        exact ih hg
      | true =>
        cases hd' : isEmojiPresentation d' with
        | false =>
          simp only [emojiRuns, hd, hd', Bool.false_eq_true, if_true, if_false] at hg
          rcases List.mem_cons.mp hg with rfl | hg2
          · intro c hc
            simp only [List.mem_singleton] at hc
            subst hc
            exact hd
          · exact ih hg2
        | true =>
          cases hr : emojiRuns (d' :: ds') with
          | nil =>
            simp only [emojiRuns, hd, hd', if_true, hr] at hg
            rcases List.mem_cons.mp hg with rfl | hg2
            · intro c hc
              simp only [List.mem_singleton] at hc
              subst hc
              exact hd
            · simp at hg2
          | cons g0 gs =>
            simp only [emojiRuns, hd, hd', if_true, hr] at hg
            rcases List.mem_cons.mp hg with rfl | hg2
            · intro c hc
              rcases List.mem_cons.mp hc with rfl | hc2
              · exact hd
              · exact ih (by rw [hr]; exact List.mem_cons_self g0 gs) c hc2
            · exact ih (by rw [hr]; exact List.mem_cons_of_mem _ hg2)

/-! ## The claims -/

/-- C1: the claim says that when the loader produces zero batches (a caught
fatal load error), `process_text` returns the empty Dataset with the full
column schema and never raises.  The code instead reaches
`pd.concat(df_list, ignore_index=True)` with `df_list == []`, which raises
`ValueError: No objects to concatenate`.  This theorem evaluates the
pipeline at that failing input: zero batches produce a raised `ValueError`,
not an empty dataset. -/
theorem c1_zero_batches_value_error :
    process_text [] = Except.error PyErr.valueErr := rfl

/-- C2 counterexample: `save_file` has no empty/absent guard.  With the
`df_data` attribute never assigned (`process_text` not yet run), the
attribute read in `if self.df_data is None` itself raises
`AttributeError`; with an empty dataset, a write is performed anyway.
Both outcomes contradict the claimed "reported no-op without exception". -/
theorem c2_counterexample :
    save_file ⟨Option.none⟩ "out" = Except.error PyErr.attrErr ∧
    save_file ⟨some []⟩ "out" = Except.ok ⟨"out.csv", [], true⟩ :=
  ⟨rfl, rfl⟩

/-- C2 amended: when the `df_data` attribute was never assigned,
`save_file` raises `AttributeError` (the recompute branch is unreachable);
otherwise it unconditionally serializes the full dataset — even an empty
one — with a header row to the caller-supplied name with `.csv`
appended. -/
theorem c2_amended (st : ExtractorState) (file_name : String) :
    (st.df_data = Option.none → save_file st file_name = Except.error PyErr.attrErr) ∧
    (∀ df, st.df_data = some df →
      save_file st file_name = Except.ok ⟨file_name ++ ".csv", df, true⟩) := by
  constructor
  · intro h
    simp [save_file, h]
  · intro df h
    simp [save_file, h]

/-- C2 witness: the amended theorem applied at a concrete state holding an
empty dataset and at a concrete file name. -/
theorem c2_witness :
    save_file ⟨some []⟩ "processed" = Except.ok ⟨"processed.csv", [], true⟩ :=
  (c2_amended ⟨some []⟩ "processed").2 [] rfl

/-- C3 counterexample: the claim says amounts marked with `€` or `£` are
extracted, so on `"€5"` it requires the value 5 in the result; the code's
pattern knows only `$`, and both inputs yield the empty list. -/
theorem c3_counterexample :
    extract_price (PyVal.str "€5") = [] ∧ extract_price (PyVal.str "£5") = [] := by
  decide

/-- C3 amended: only the symbol `$` is recognized (optionally separated by
one whitespace character when it precedes the digits); in appearance order
with duplicates preserved and thousands separators stripped, and in
particular the spec example holds. -/
theorem c3_amended :
    extract_price (PyVal.str "Price: $1,200.50 and 99$") = [1200.5, 99] ∧
    extract_price (PyVal.str "$ 7") = [7] ∧
    extract_price (PyVal.str "$2 and $2") = [2, 2] := by
  refine ⟨?_, ?_, ?_⟩
  · show (priceGo ("Price: $1,200.50 and 99$".toList.length + 1) false
        "Price: $1,200.50 and 99$".toList).map
        (fun n => pyFloat (n.filter (fun c => !(c = ',')))) = [1200.5, 99]
    have h : priceGo ("Price: $1,200.50 and 99$".toList.length + 1) false
        "Price: $1,200.50 and 99$".toList =
        [['1', ',', '2', '0', '0', '.', '5', '0'], ['9', '9']] := by decide
    rw [h]
    show [((1200 : ℕ) : ℚ) + ((50 : ℕ) : ℚ) / (10 : ℚ) ^ (2 : ℕ), ((99 : ℕ) : ℚ)] =
      [1200.5, 99]
    norm_num
  · show (priceGo ("$ 7".toList.length + 1) false "$ 7".toList).map
        (fun n => pyFloat (n.filter (fun c => !(c = ',')))) = [7]
    have h : priceGo ("$ 7".toList.length + 1) false "$ 7".toList = [['7']] := by
      decide
    rw [h]
    show [((7 : ℕ) : ℚ)] = [7]
    norm_num
  · show (priceGo ("$2 and $2".toList.length + 1) false "$2 and $2".toList).map
        (fun n => pyFloat (n.filter (fun c => !(c = ',')))) = [2, 2]
    have h : priceGo ("$2 and $2".toList.length + 1) false "$2 and $2".toList =
        [['2'], ['2']] := by decide
    rw [h]
    show [((2 : ℕ) : ℚ), ((2 : ℕ) : ℚ)] = [2, 2]
    norm_num

/-- C4 counterexample: `é` is a (Unicode) word character, so the claim
("`#` followed by one or more word characters, Unicode-aware") requires
`"#café"` to produce a hashtag; the code's ASCII-only class
`[a-zA-Z0-9_]+` together with the Unicode-aware trailing `\b` rejects the
whole candidate and returns nothing. -/
theorem c4_counterexample :
    isWordCh 'é' = true ∧ extract_hashtags (PyVal.str "#café") = [] := by
  decide

/-- C4 amended: hashtags are `#` followed by one or more ASCII word
characters `[a-zA-Z0-9_]` ending at a word boundary, in left-to-right
order with duplicates preserved; a candidate whose ASCII run is
immediately followed by a non-ASCII word character (such as `é`) is
rejected entirely. -/
theorem c4_amended :
    extract_hashtags
        (PyVal.str "Loving #sunnyDay and #coffee ☕ @joe, check https://x.co #coffee") =
      ["#sunnyDay", "#coffee", "#coffee"] ∧
    extract_hashtags (PyVal.str "#tag1 stop. #tag1") = ["#tag1", "#tag1"] ∧
    extract_hashtags (PyVal.str "#café") = [] := by
  decide

/-- C5 counterexample: the claim says every non-string (or null) input
yields `""` without error; in the code only `None` is guarded
(`if text is not None`), so a non-string, non-`None` value — pandas' float
`NaN`, or any other object — reaches `regex.sub` and raises `TypeError`. -/
theorem c5_counterexample :
    clean_text PyVal.nan = Except.error PyErr.typeErr ∧
    clean_text PyVal.other = Except.error PyErr.typeErr :=
  ⟨rfl, rfl⟩

/-- C5 amended: a null input yields the empty string without error; every
other non-string input raises `TypeError` instead. -/
theorem c5_amended :
    clean_text PyVal.none = Except.ok "" ∧
    clean_text PyVal.nan = Except.error PyErr.typeErr ∧
    clean_text PyVal.other = Except.error PyErr.typeErr :=
  ⟨rfl, rfl, rfl⟩

/-- C6: `clean_text` is idempotent: on strings
`clean(clean(x)) = clean(x)`, and composing `clean_text` with itself in
the exception monad (errors propagate) is `clean_text` on every input
value. -/
theorem c6_clean_idempotent :
    (∀ s : String, cleanStr (cleanStr s) = cleanStr s) ∧
    ∀ v : PyVal,
      Except.bind (clean_text v) (fun s => clean_text (PyVal.str s)) = clean_text v := by
  refine ⟨cleanStr_idem, ?_⟩
  intro v
  cases v with
  | str s =>
    show Except.ok (cleanStr (cleanStr s)) = Except.ok (cleanStr s)
    rw [cleanStr_idem]
  | none => rfl
  | nan => rfl
  | other => rfl

/-- C7: emoticons are extracted as maximal runs of consecutive
emoji-presentation characters, each run one combined string with the five
skin-tone modifiers removed: the spec example evaluates to the grouped
runs `"😀😀"` and `"👍"`, and every character of every returned group is
an emoji-presentation character and not a skin-tone modifier. -/
theorem c7_emoticons_grouped :
    extract_emoticons (PyVal.str "😀😀 great day 🏽👍🏽") = ["😀😀", "👍"] ∧
    ∀ v g, g ∈ extract_emoticons v → ∀ c ∈ g.toList,
      isEmojiPresentation c = true ∧ isSkinTone c = false := by
  constructor
  · decide
  · intro v g hg c hc
    cases v with
    | str s =>
      unfold extract_emoticons at hg
      rcases List.mem_map.mp hg with ⟨run, hrun, rfl⟩
      rw [toList_asString] at hc
      have hm := List.mem_filter.mp hc
      refine ⟨emojiRuns_mem hrun c hm.1, ?_⟩
      simpa using hm.2
    | none => simp [extract_emoticons] at hg
    | nan => simp [extract_emoticons] at hg
    | other => simp [extract_emoticons] at hg

/-- C7 witness: the general part of the theorem applied to the concrete
group `"👍"` extracted from `"🏽👍🏽"`. -/
theorem c7_witness : isEmojiPresentation '👍' = true ∧ isSkinTone '👍' = false :=
  c7_emoticons_grouped.2 (PyVal.str "🏽👍🏽") "👍" (by decide) '👍' (by decide)

/-- C8: whenever `process_text` returns a Dataset, its rows' raw columns
`(text, user_name)` are, in order, exactly the rows of the input chunks
flattened in arrival order: batch order, then row order within each
batch. -/
theorem c8_row_order (chunks : List (List RawRow)) (df : List AnnRow)
    (h : process_text chunks = Except.ok df) :
    df.map (fun a => (a.text, a.user_name)) =
      chunks.flatten.map (fun r => (r.text, r.user_name)) := by
  unfold process_text at h
  cases hb : buildChunks chunks with
  | error e => rw [hb] at h; simp at h
  | ok dfs =>
    rw [hb] at h
    cases dfs with
    | nil => simp [pd_concat] at h
    | cons d ds =>
      have h2 : Except.ok ((d :: ds).flatten) = Except.ok df := h
      injection h2 with h3
      subst h3
      exact buildChunks_ok hb

/-- C8 witness: the theorem applied to a concrete two-chunk input. -/
theorem c8_witness :
    List.map (fun a : AnnRow => (a.text, a.user_name))
        [⟨PyVal.str "hola", PyVal.str "u1", [], [], [], [], [], "hola"⟩,
         ⟨PyVal.str "adios", PyVal.str "u2", [], [], [], [], [], "adios"⟩] =
      List.map (fun r : RawRow => (r.text, r.user_name))
        ([[⟨PyVal.str "hola", PyVal.str "u1"⟩],
          [⟨PyVal.str "adios", PyVal.str "u2"⟩]] : List (List RawRow)).flatten :=
  c8_row_order
    [[⟨PyVal.str "hola", PyVal.str "u1"⟩], [⟨PyVal.str "adios", PyVal.str "u2"⟩]]
    [⟨PyVal.str "hola", PyVal.str "u1", [], [], [], [], [], "hola"⟩,
     ⟨PyVal.str "adios", PyVal.str "u2", [], [], [], [], [], "adios"⟩]
    (by rfl)

/-- C9 counterexample: the claim names the cleaned-text column
`cleaned_text` (or an overwrite of `text`); the produced column set is
`["text", "user_name", "Hashtags", "URLs", "Prices", "Emoticons",
"Mentions", "text_cleaned"]` — no `cleaned_text` — and on a row whose text
changes under cleaning, the `text` column keeps the raw value while the
cleaned value sits in `text_cleaned`. -/
theorem c9_counterexample :
    processedCols =
      ["text", "user_name", "Hashtags", "URLs", "Prices", "Emoticons",
        "Mentions", "text_cleaned"] ∧
    processedCols.contains "cleaned_text" = false ∧
    annotateRow ⟨PyVal.str "a  b", PyVal.str "u"⟩ =
      Except.ok ⟨PyVal.str "a  b", PyVal.str "u", [], [], [], [], [], "a b"⟩ ∧
    ("a b" == "a  b") = false := by
  refine ⟨by decide, by decide, by rfl, by decide⟩

/-- C9 amended: the column set is exactly `{text, user_name, Hashtags,
URLs, Prices, Emoticons, Mentions, text_cleaned}`, with the cleaned text
stored in the new column `text_cleaned` and the `text` column left as the
raw value. -/
theorem c9_amended :
    processedCols =
      ["text", "user_name", "Hashtags", "URLs", "Prices", "Emoticons",
        "Mentions", "text_cleaned"] ∧
    ∀ r a, annotateRow r = Except.ok a →
      a.text = r.text ∧ clean_text r.text = Except.ok a.text_cleaned := by
  refine ⟨by decide, ?_⟩
  intro r a h
  obtain ⟨h1, _, _, _, _, _, _, h8⟩ := annotateRow_ok h
  exact ⟨h1, h8⟩

/-- C9 witness: the amended theorem applied at a concrete row whose
cleaning collapses a double space. -/
theorem c9_witness :
    (⟨PyVal.str "a  b", PyVal.str "u", [], [], [], [], [], "a b"⟩ : AnnRow).text =
      PyVal.str "a  b" ∧
    clean_text (PyVal.str "a  b") =
      Except.ok
        (⟨PyVal.str "a  b", PyVal.str "u", [], [], [], [], [], "a b"⟩ : AnnRow).text_cleaned :=
  c9_amended.2 ⟨PyVal.str "a  b", PyVal.str "u"⟩
    ⟨PyVal.str "a  b", PyVal.str "u", [], [], [], [], [], "a b"⟩ (by rfl)

/-- C10: every derived column of an annotated row is computed from the
row's raw `text` value — the five extractors are applied to the original
text, not the cleaned one — while the cleaned text goes to the separate
`text_cleaned` column and `text` itself is unchanged. -/
theorem c10_extractors_on_raw_text :
    ∀ r a, annotateRow r = Except.ok a →
      a.text = r.text ∧
      a.Hashtags = extract_hashtags r.text ∧
      a.URLs = extract_urls r.text ∧
      a.Prices = extract_price r.text ∧
      a.Emoticons = extract_emoticons r.text ∧
      a.Mentions = extract_mentions r.text ∧
      clean_text r.text = Except.ok a.text_cleaned := by
  intro r a h
  obtain ⟨h1, _, h3, h4, h5, h6, h7, h8⟩ := annotateRow_ok h
  exact ⟨h1, h3, h4, h5, h6, h7, h8⟩

/-- C10 witness: the theorem applied at a row whose text contains a URL
that cleaning destroys (the `/` characters are stripped), showing the URL
extractor saw the raw text: the stored URL column is non-empty while the
cleaned text contains no extractable URL. -/
theorem c10_witness :
    (⟨PyVal.str "see https://x.co/a b", PyVal.str "u", [], ["https://x.co/a"],
        [], [], [], "see https:x.coa b"⟩ : AnnRow).URLs =
      extract_urls (PyVal.str "see https://x.co/a b") ∧
    extract_urls (PyVal.str "see https:x.coa b") = [] :=
  ⟨(c10_extractors_on_raw_text ⟨PyVal.str "see https://x.co/a b", PyVal.str "u"⟩
      ⟨PyVal.str "see https://x.co/a b", PyVal.str "u", [], ["https://x.co/a"],
        [], [], [], "see https:x.coa b"⟩ (by rfl)).2.2.1,
   by rfl⟩
